import Mathlib

/-!
Shallow embedding of the RBI UCCS extraction/normalization pipeline
(`src/extract_pdf_data.py` and `src/consolidate_data.py`), together with
theorems checking the natural-language specification against the code.

Strings are modelled as Lean `String`s; Python cell values coming out of
the spreadsheet layer are modelled by the inductive `PyVal`
(string / number / missing).  Machine floats are modelled as `Rat`:
no claim under scrutiny depends on float rounding.
-/

set_option maxRecDepth 10000
set_option maxHeartbeats 4000000

namespace RbiUccs

/-! ## Generic string helpers (Python semantics on `List Char`) -/

/-- Does `p` occur at the very start of `l`?  (Python `str.startswith`,
character-exact.) -/
def leadEq : List Char → List Char → Bool
  | [], _ => true
  | _ :: _, [] => false
  | a :: as, b :: bs => a == b && leadEq as bs

/-- Python `needle in hay` (contiguous-substring containment). -/
def containsSub (hay needle : List Char) : Bool :=
  leadEq needle hay ||
    match hay with
    | [] => false
    | _ :: t => containsSub t needle

/-- Python `str.lower()` (the data in this pipeline is ASCII). -/
def lowerStr (s : String) : String := ⟨s.data.map Char.toLower⟩

/-- Python `str.startswith` on `String`s. -/
def startsW (s pre : String) : Bool := leadEq pre.data s.data

/-- Case-insensitive literal match (for regexes compiled with
`re.IGNORECASE`), returning the remaining characters on success. -/
def matchCI : List Char → List Char → Option (List Char)
  | [], cs => some cs
  | _ :: _, [] => none
  | p :: ps, c :: cs => if p.toLower == c.toLower then matchCI ps cs else none

/-- Whitespace for Python `str.strip()` (the pipeline's data is ASCII). -/
def isWs (c : Char) : Bool := c.isWhitespace

/-- Python `str.strip()` on a character list. -/
def stripChars (l : List Char) : List Char :=
  ((l.dropWhile isWs).reverse.dropWhile isWs).reverse

/-- Python `str.strip()`. -/
def pyStrip (s : String) : String := ⟨stripChars s.data⟩

/-- Python `" ".join(xs)`. -/
def joinSpace : List String → String
  | [] => ""
  | [s] => s
  | s :: rest => s ++ " " ++ joinSpace rest

/-- Python slicing `s[:n]` (first `n` characters). -/
def strTake (s : String) (n : Nat) : String := ⟨s.data.take n⟩

/-- Decimal digit character for `d % 10`. -/
def dchar (d : Nat) : Char :=
  match d with
  | 0 => '0' | 1 => '1' | 2 => '2' | 3 => '3' | 4 => '4'
  | 5 => '5' | 6 => '6' | 7 => '7' | 8 => '8' | _ => '9'

/-- Numeric value of a decimal digit character. -/
def dval (c : Char) : Nat := c.toNat - 48

/-- Little-endian decimal digits of `n` (fuel-driven so that it is
structural and kernel-reducible; fuel `n` always suffices). -/
def natToRev (fuel n : Nat) : List Char :=
  match fuel with
  | 0 => []
  | f + 1 => if n = 0 then [] else dchar (n % 10) :: natToRev f (n / 10)

/-- Decimal rendering of a natural number (Python `str(i)` / f-string). -/
def natStr (n : Nat) : String :=
  if n = 0 then "0" else ⟨(natToRev n n).reverse⟩

/-! ## Table Namer: `clean_sheet_name` (extract_pdf_data.py, lines 126-133) -/

/-- The characters removed by `re.sub(r"[\[\]:*?/\\]", "", name)`. -/
def illegalChar (c : Char) : Bool :=
  c == '[' || c == ']' || c == ':' || c == '*' || c == '?' || c == '/' || c == '\\'

/-- `re.sub(r"[\[\]:*?/\\]", "", name).strip()[:31]`. -/
def cleanBase (name : String) : String :=
  strTake (pyStrip ⟨name.data.filter (fun c => !illegalChar c)⟩) 31

/-- Python `f"{base_name}_{i}"`. -/
def suffixName (base : String) (i : Nat) : String := base ++ "_" ++ natStr i

/-- The `while f"{base_name}_{i}" in existing_names: i += 1` loop,
returning the final `i`.  The Python loop is unbounded; fuel
`existing.length + 1` always suffices (pigeonhole, proved below). -/
def loopI (base : String) (names : List String) : Nat → Nat → Nat
  | 0, i => i
  | f + 1, i => if suffixName base i ∈ names then loopI base names f (i + 1) else i

/-- `clean_sheet_name(name, existing_names)` from extract_pdf_data.py. -/
def clean_sheet_name (name : String) (existing : List String) : String :=
  if cleanBase name ∈ existing then
    suffixName (strTake (cleanBase name) 28)
      (loopI (strTake (cleanBase name) 28) existing (existing.length + 1) 1)
  else cleanBase name

/-- Decoder for little-endian decimal digit lists (proof tool for the
injectivity of `natStr`). -/
def decodeRev : List Char → Nat
  | [] => 0
  | c :: cs => dval c + 10 * decodeRev cs

/-- 31-character title (already free of illegal characters). -/
def c5exName : String := "ABCDEFGHIJKLMNOPQRSTUVWXYZ12345"

/-- Its 28-character truncation. -/
def c5exBase : String := "ABCDEFGHIJKLMNOPQRSTUVWXYZ12"

/-- A set of assigned names occupying the title itself and suffixes 1..99. -/
def c5exNames : List String :=
  c5exName :: (List.range 99).map (fun k => suffixName c5exBase (k + 1))

/-- A 30-character title that already ends in `_1` at its own
28-character truncation. -/
def c5edge : String := "AAAAAAAAAAAAAAAAAAAAAAAAAAAA_1"

/-! ## Panel Consolidator: `process_table_panels` (extract_pdf_data.py,
lines 135-164).  A raw PDF cell is `Option String` (pdfplumber yields a
string or `None`). -/

/-- Python `str(cell or "")`. -/
def cellStr : Option String → String
  | none => ""
  | some s => s

/-- Python `str(cell)` (`str(None)` prints as `"None"`; the junk-phrase
check joins raw cells with `map(str, row)`). -/
def cellRepr : Option String → String
  | none => "None"
  | some s => s

/-- The configured junk phrases (line 137). -/
def junkPhrases : List String :=
  ["percentage responses", "applicable only for those respondents"]

/-- `any(str(c or "").strip() for c in row)`. -/
def rowHasContent (row : List (Option String)) : Bool :=
  row.any (fun c => pyStrip (cellStr c) != "")

/-- `any(jp in " ".join(map(str, row)).lower() for jp in junk_phrases)`. -/
def rowIsJunk (row : List (Option String)) : Bool :=
  junkPhrases.any (fun jp =>
    containsSub (lowerStr (joinSpace (row.map cellRepr))).data jp.data)

/-- `string_rows` (lines 140-143): stringify+strip cells of the surviving
rows. -/
def stringRows (allRows : List (List (Option String))) : List (List String) :=
  (allRows.filter (fun row => rowHasContent row && !rowIsJunk row)).map
    (fun row => row.map (fun c => pyStrip (cellStr c)))

/-- ASCII `\w` for the period regex word boundaries. -/
def isWordChar (c : Char) : Bool := c.isAlphanum || c == '_'

/-- The month alternatives of `\b(?:Jan|Feb|...|Dec)-\d{2}\b`
(case-sensitive: the pattern is compiled without `re.IGNORECASE`). -/
def monthAbbrevs : List String :=
  ["Jan", "Feb", "Mar", "Apr", "May", "Jun", "Jul", "Aug", "Sep", "Oct", "Nov", "Dec"]

/-- Does `\b(?:Jan|...|Dec)-\d{2}\b` match at the current position?
`prev` is the character just before the position (`none` at the start);
the leading `\b` holds iff `prev` is absent or a non-word character, and
the trailing `\b` iff the character after the two digits is absent or a
non-word character. -/
def periodAt (prev : Option Char) (cs : List Char) : Bool :=
  (match prev with
   | none => true
   | some p => !isWordChar p) &&
  monthAbbrevs.any (fun m =>
    leadEq m.data cs &&
    (match cs.drop 3 with
     | '-' :: d1 :: d2 :: rest =>
       d1.isDigit && d2.isDigit &&
       (match rest with
        | [] => true
        | c :: _ => !isWordChar c)
     | _ => false))

/-- `re.search`: try the pattern at every position. -/
def periodGo (prev : Option Char) (cs : List Char) : Bool :=
  periodAt prev cs ||
    match cs with
    | [] => false
    | c :: rest => periodGo (some c) rest

/-- `bool(re.search(r'\b(?:Jan|...|Dec)-\d{2}\b', s))`. -/
def periodSearch (s : String) : Bool := periodGo none s.data

/-- Header/body classification with the irreversible `header_ended` flag
(lines 146-150): once a row's joined text matches the period pattern, that
row and every later row are body. -/
def classifyRows (ended : Bool) : List (List String) → List (List String) × List (List String)
  | [] => ([], [])
  | row :: rest =>
    if ended || periodSearch (joinSpace row) then
      ((classifyRows true rest).1, row :: (classifyRows true rest).2)
    else
      (row :: (classifyRows false rest).1, (classifyRows false rest).2)

/-- Fallback (line 151): `if not body_rows: body_rows = [r for r in
string_rows if r not in header_rows]`. -/
def fallbackBody (string_rows header_rows body_rows : List (List String)) :
    List (List String) :=
  if body_rows = [] then string_rows.filter (fun r => !(header_rows.contains r))
  else body_rows

/-- Body rows after fallback and the "cells 1.. all empty" filter
(line 153). -/
def panelsBody (string_rows : List (List String)) : List (List String) :=
  (fallbackBody string_rows (classifyRows false string_rows).1
      (classifyRows false string_rows).2).filter
    (fun row => row.tail.any (fun cell => cell != ""))

/-- `max(len(r) for r in string_rows)` (line 155). -/
def panelsNumCols (string_rows : List (List String)) : Nat :=
  (string_rows.map List.length).foldl max 0

/-- One header row merged into the accumulating header (lines 157-159):
`if cell: merged_header[i] = f"{merged_header[i]} {cell}".strip()`. -/
def mergeRow (acc : List String) (r : List String) : List String :=
  acc.mapIdx (fun i m =>
    match r.get? i with
    | some cell => if cell ≠ "" then pyStrip (m ++ " " ++ cell) else m
    | none => m)

/-- The merged header (lines 156-162), including the `Survey Round`
special case for an unlabeled period column. -/
def panelsMerged (string_rows : List (List String)) : List String :=
  if panelsBody string_rows ≠ []
      ∧ ((classifyRows false string_rows).1.foldl mergeRow
          (List.replicate (panelsNumCols string_rows) "")).headD "" = ""
      ∧ periodSearch (((panelsBody string_rows).headD []).headD "") then
    ((classifyRows false string_rows).1.foldl mergeRow
        (List.replicate (panelsNumCols string_rows) "")).set 0 "Survey Round"
  else
    (classifyRows false string_rows).1.foldl mergeRow
      (List.replicate (panelsNumCols string_rows) "")

/-- `process_table_panels(panels)` (lines 135-164). -/
def process_table_panels (panels : List (List (List (Option String)))) :
    List (List String × List (List String)) :=
  if stringRows panels.flatten = [] then []
  else
    [(panelsMerged (stringRows panels.flatten),
      panelsBody (stringRows panels.flatten))]

/-- C1's example panel: two header rows above one period-labelled body
row. -/
def c1panels : List (List (List (Option String))) :=
  [[[some "Current Perception", some "", some ""],
    [some "-Increased", some "-Same", some "-Decreased"],
    [some "May-25", some "40", some "35"]]]

/-- C2's example panel: a single surviving row with no period pattern. -/
def c2panels : List (List (List (Option String))) :=
  [[[some "Note", some "x"]]]

/-! ## Column pruning and header override: `write_to_excel`
(extract_pdf_data.py, lines 207-215) -/

/-- `cols_to_keep` (lines 207-208): indices of header columns having some
non-blank body cell, with column 0 re-inserted in front when dropped but
the header's first cell is non-empty. -/
def colsToKeep (header : List String) (body : List (List String)) : List Nat :=
  if 0 ∉ (List.range header.length).filter
        (fun i => body.any (fun row => decide (i < row.length) &&
          (pyStrip (row.getD i "") != "")))
      ∧ header ≠ [] ∧ header.headD "" ≠ "" then
    0 :: (List.range header.length).filter
      (fun i => body.any (fun row => decide (i < row.length) &&
        (pyStrip (row.getD i "") != "")))
  else
    (List.range header.length).filter
      (fun i => body.any (fun row => decide (i < row.length) &&
        (pyStrip (row.getD i "") != "")))

/-- `pruned_header = [header[i] for i in cols_to_keep]` (line 210). -/
def prunedHeader (header : List String) (body : List (List String)) : List String :=
  (colsToKeep header body).map (fun i => header.getD i "")

/-- `pruned_body` (line 211): `row[i] if i < len(row) else ""`. -/
def prunedBody (header : List String) (body : List (List String)) :
    List (List String) :=
  body.map (fun row => (colsToKeep header body).map
    (fun i => if i < row.length then row.getD i "" else ""))

/-- The hard-coded 9-column header (line 215). -/
def fixedPerceptionsHeader : List String :=
  ["Survey Round", "Current Perception -Increased", "Current Perception-Remained Same",
   "Current Perception-Decreased", "Current Perception-Net Response",
   "One year ahead Expectation- Will Increase", "One year ahead Expectation-Will Remain Same",
   "One year ahead Expectation-Will Decrease", "One year ahead Expectation-Net Response"]

/-- `final_header` (lines 213-215): replace the pruned header with the
hard-coded list when the title mentions "perceptions and expectations"
(case-insensitive) and the pruned header has exactly 9 columns. -/
def finalHeader (title : String) (pruned : List String) : List String :=
  if containsSub (lowerStr title).data "perceptions and expectations".data
      && pruned.length == 9 then
    fixedPerceptionsHeader
  else pruned

/-! ## Document Table Locator: `extract_pdf_data` (extract_pdf_data.py,
lines 166-183) -/

/-- A table region's extracted cell grid. -/
abbrev Grid := List (List (Option String))

/-- A positioned page item: a qualifying title line or a table region,
keyed by vertical position.  Positions are modelled as `Int`; only their
order matters. -/
inductive PItem where
  | titleLine (pos : Int) (text : String)
  | tableReg (pos : Int) (grid : Grid)

def pitemPos : PItem → Int
  | .titleLine p _ => p
  | .tableReg p _ => p

/-- A page: positioned text lines and positioned table regions, each in
discovery order. -/
structure Page where
  lines : List (Int × String)
  tables : List (Int × Grid)

/-- Stable insertion: a new item goes after every already-placed item of
smaller-or-equal position (Python's `sorted` is stable). -/
def insByPos (x : PItem) : List PItem → List PItem
  | [] => [x]
  | y :: ys => if pitemPos y ≤ pitemPos x then y :: insByPos x ys else x :: y :: ys

/-- Stable sort by position. -/
def sortByPos (l : List PItem) : List PItem :=
  l.foldl (fun acc x => insByPos x acc) []

/-- One page's combined item list (lines 171-175): one title entry per
text line whose text lowercased starts with `"table "`, one table entry
per table region, sorted stably by vertical position (title entries come
first in the pre-sort concatenation, as in the source). -/
def pageItems (page : Page) : List PItem :=
  sortByPos
    ((page.lines.filter (fun p => startsW (lowerStr p.2) "table ")).map
        (fun p => PItem.titleLine p.1 p.2)
      ++ page.tables.map (fun p => PItem.tableReg p.1 p.2))

/-- All items of the document, page by page. -/
def docItems (pages : List Page) : List PItem :=
  (pages.map pageItems).flatten

/-- The default title (line 168). -/
def defaultTitle : String := "Summary based on Net Responses"

/-- The current-title / panel-accumulator walk of lines 176-182, with the
final flush of line 182. -/
def locWalk (title : String) (acc : List Grid) : List PItem → List (String × List Grid)
  | [] => if acc = [] then [] else [(title, acc)]
  | .titleLine _ t :: rest =>
    if acc = [] then locWalk t [] rest else (title, acc) :: locWalk t [] rest
  | .tableReg _ g :: rest => locWalk title (acc ++ [g]) rest

/-- `extract_pdf_data(pdf_path)` (lines 166-183), over the document
abstraction `List Page`. -/
def extract_pdf_data (pages : List Page) : List (String × List Grid) :=
  locWalk defaultTitle [] (docItems pages)

/-- The table grids of an item list, in order. -/
def tablesOf (items : List PItem) : List Grid :=
  items.filterMap (fun it => match it with
    | .tableReg _ g => some g
    | .titleLine _ _ => none)

/-- Is the item a title entry? -/
def isTitleItem : PItem → Bool
  | .titleLine _ _ => true
  | .tableReg _ _ => false

/-- The table grids occurring before the first title entry of the
document. -/
def preTables (items : List PItem) : List Grid :=
  tablesOf (items.takeWhile (fun it => !isTitleItem it))

/-- C4 witness data: a first page with an untitled table, a second page
with a title line above a second table. -/
def c4grid1 : Grid := [[some "May-25", some "40"]]

def c4grid2 : Grid := [[some "Jun-25", some "41"]]

def c4pages : List Page :=
  [⟨[], [(5, c4grid1)]⟩,
   ⟨[(1, "Table 1: Perceptions on Inflation")], [(2, c4grid2)]⟩]

/-! ## consolidate_data.py: Date Normalizer, Wide-to-Long Normalizer,
Consolidation/Dedup -/

/-- A Python value as read back from a spreadsheet cell: a string, a
number (floats modelled as `Rat`), or `None`. -/
inductive PyVal where
  | vstr (s : String)
  | vnum (q : Rat)
  | vnone
deriving DecidableEq

/-- Lowercased month abbreviations, in month order (`strptime`'s `%b`
matches them case-insensitively: `_strptime` compiles with
`re.IGNORECASE`). -/
def monthNames : List String :=
  ["jan", "feb", "mar", "apr", "may", "jun", "jul", "aug", "sep", "oct", "nov", "dec"]

/-- Month abbreviation to month number (1-12). -/
def monthNum (m : String) : Option Nat :=
  match monthNames.findIdx? (fun x => x == lowerStr m) with
  | some i => some (i + 1)
  | none => none

/-- `%y`: Python maps 00-68 to 2000-2068 and 69-99 to 1969-1999. -/
def expandYear (yy : Nat) : Nat := if yy ≤ 68 then 2000 + yy else 1900 + yy

/-- Zero-padded two-digit rendering (strftime `%m`). -/
def twoDigits (n : Nat) : String := if n < 10 then "0" ++ natStr n else natStr n

/-- `datetime.strptime(s, '%b-%y')`: the whole string must be a month
abbreviation, a literal dash, and exactly two digits (`%y` compiles to
`\d\d`, and strptime rejects unconverted trailing data). -/
def parseMonYY (s : String) : Option (Nat × Nat) :=
  match s.data with
  | [c1, c2, c3, '-', d1, d2] =>
    if d1.isDigit && d2.isDigit then
      match monthNum ⟨[c1, c2, c3]⟩ with
      | some m => some (m, dval d1 * 10 + dval d2)
      | none => none
    else none
  | _ => none

/-- `parse_survey_round(date_str)` (consolidate_data.py, lines 42-59):
`None` for non-strings and parse failures, else
`strftime('%Y-%m-%d')` of the first of the month.  `%Y` always renders
four digits here (years 1969-2068). -/
def parse_survey_round : PyVal → Option String
  | .vstr s =>
    match parseMonYY s with
    | some (m, yy) => some (natStr (expandYear yy) ++ "-" ++ twoDigits m ++ "-01")
    | none => none
  | _ => none

/-- The `for\s(.+)` alternative of `extract_perception_category`'s regex,
tried at one position.  `.` does not match a newline and `.+` is greedy
with nothing after it, so the capture is the (non-empty) rest of the
line. -/
def catForAt (cs : List Char) : Option (List Char) :=
  match matchCI "for".data cs with
  | some (w :: rest) =>
    if isWs w && !(rest.takeWhile (fun c => c != '\n')).isEmpty then
      some (rest.takeWhile (fun c => c != '\n'))
    else none
  | _ => none

/-- `on\s(.+)|for\s(.+)` tried at one position: the left alternative
first, then the right one (both case-insensitive). -/
def catAt (cs : List Char) : Option (List Char) :=
  match matchCI "on".data cs with
  | some (w :: rest) =>
    if isWs w && !(rest.takeWhile (fun c => c != '\n')).isEmpty then
      some (rest.takeWhile (fun c => c != '\n'))
    else catForAt cs
  | _ => catForAt cs

/-- `re.search`: leftmost position wins. -/
def catSearch (cs : List Char) : Option (List Char) :=
  match catAt cs with
  | some g => some g
  | none =>
    match cs with
    | [] => none
    | _ :: rest => catSearch rest

/-- `extract_perception_category(title_from_cell)` (lines 61-73): the
captured group with every `*` and `:` removed and stripped, defaulting to
`"General"`. -/
def extract_perception_category (title : String) : String :=
  match catSearch title.data with
  | some g => pyStrip ⟨g.filter (fun c => !(c == '*' || c == ':'))⟩
  | none => "General"

/-- The two fixed horizon phrases (line 104), in order. -/
def perception_types : List String :=
  ["Current Perception", "One year ahead Expectation"]

/-- Lines 107-109: the first phrase the metric label starts with
(case-sensitive), else `'Net Response'`. -/
def perceptionTypeOf (metric : String) : String :=
  match perception_types.find? (fun pt => startsW metric pt) with
  | some pt => pt
  | none => "Net Response"

/-- Python `str.replace(old, new)` (all occurrences), fuel-driven; fuel
`hay.length` always suffices for non-empty `old`. -/
def replChars (old new : List Char) : Nat → List Char → List Char
  | 0, hay => hay
  | _ + 1, [] => []
  | f + 1, c :: rest =>
    if leadEq old (c :: rest) && !old.isEmpty then
      new ++ replChars old new f ((c :: rest).drop old.length)
    else
      c :: replChars old new f rest

/-- Python `s.replace(old, new)`.  (For empty `old` Python interleaves
`new` between characters; the pipeline only ever replaces with `new = ''`,
where that is the identity, as here.) -/
def strReplace (s old new : String) : String :=
  if old.isEmpty then s
  else ⟨replChars old.data new.data s.data.length s.data⟩

/-- Lines 111-117: `response_category` — remove the matched horizon
phrase and all hyphens and strip, but rows classified `'Net Response'`
are overridden to the literal `'Net Response'`. -/
def responseCategoryOf (metric : String) : String :=
  if perceptionTypeOf metric = "Net Response" then "Net Response"
  else pyStrip (strReplace (strReplace metric (perceptionTypeOf metric) "") "-" "")

/-- One normalized observation (the five columns selected at lines
137-143). -/
structure Obs where
  survey_round : String
  perception_category : String
  perception_type : String
  response_category : String
  response_percentage : Rat
deriving DecidableEq

/-- Big-endian decimal digit list to `Nat`. -/
def decodeDigits (ds : List Char) : Nat := ds.foldl (fun a c => 10 * a + dval c) 0

/-- Decimal-literal parsing for `pd.to_numeric` on strings: optional
sign, integer part, optional fractional part (scientific notation and
special values are not modelled; no claim depends on them).  The value
`ipart.frac` is `(ipart * 10^k + frac) / 10^k`. -/
def parseUnsigned (cs : List Char) : Option Rat :=
  match cs.dropWhile Char.isDigit with
  | [] =>
    if (cs.takeWhile Char.isDigit).isEmpty then none
    else some (mkRat (Int.ofNat (decodeDigits (cs.takeWhile Char.isDigit))) 1)
  | '.' :: frac =>
    if frac.all Char.isDigit
        && !((cs.takeWhile Char.isDigit).isEmpty && frac.isEmpty) then
      some (mkRat
        (Int.ofNat (decodeDigits (cs.takeWhile Char.isDigit) * 10 ^ frac.length
          + decodeDigits frac))
        (10 ^ frac.length))
    else none
  | _ => none

/-- `pd.to_numeric(..., errors='coerce')` on a cell value: numbers pass
through, strings are parsed as decimal literals, everything else is NaN
(and NaN rows are dropped by `dropna`). -/
def toNumeric : PyVal → Option Rat
  | .vnum q => some q
  | .vstr s =>
    match (pyStrip s).data with
    | '-' :: rest => (parseUnsigned rest).map Rat.neg
    | '+' :: rest => parseUnsigned rest
    | cs => parseUnsigned cs
  | .vnone => none

/-- `process_sheet(df, sheet_title)` (lines 75-145): require the exact
column label `'Survey Round'` (else an empty result); melt the remaining
columns in column-major order pairing each metric label with each row;
parse the period with `parse_survey_round` and coerce the value with
`to_numeric`, dropping the observation when either fails.  Cells missing
from a short row are NaN (`PyVal.vnone`). -/
def process_sheet (header : List String) (rows : List (List PyVal))
    (sheet_title : String) : List Obs :=
  if header.contains "Survey Round" then
    (header.enum.filter
        (fun p => p.1 != header.findIdx (fun h => h == "Survey Round"))).flatMap
      (fun p =>
        rows.filterMap (fun row =>
          match parse_survey_round
                  (row.getD (header.findIdx (fun h => h == "Survey Round")) PyVal.vnone),
                toNumeric (row.getD p.1 PyVal.vnone) with
          | some d, some q =>
            some ⟨d, extract_perception_category sheet_title,
                  perceptionTypeOf p.2, responseCategoryOf p.2, q⟩
          | _, _ => none))
  else []

/-- `drop_duplicates()` keeping first occurrences, with the accumulator of
already-seen rows. -/
def dropDupsAux : List Obs → List Obs → List Obs
  | _, [] => []
  | seen, x :: xs =>
    if x ∈ seen then dropDupsAux seen xs else x :: dropDupsAux (x :: seen) xs

/-- `pd.concat(all_processed_sheets); drop_duplicates()` (consolidate_data.py,
lines 222-226). -/
def consolidateObs (tables : List (List Obs)) : List Obs :=
  dropDupsAux [] tables.flatten

/-- C7 witness data. -/
def c7obs1 : Obs := ⟨"2025-05-01", "Economic Situation", "Current Perception", "Increased", 40⟩

def c7obs2 : Obs := ⟨"2025-06-01", "Economic Situation", "Current Perception", "Increased", 41⟩

def c7tables : List (List Obs) := [[c7obs1, c7obs2], [c7obs1]]

/-! ### Lemmas about decimal rendering -/

lemma dval_dchar : ∀ d, d < 10 → dval (dchar d) = d := by decide

lemma natToRev_zero : ∀ f, natToRev f 0 = [] := by
  intro f; cases f <;> simp [natToRev]

lemma decode_natToRev : ∀ fuel n, n ≤ fuel → decodeRev (natToRev fuel n) = n := by
  intro fuel
  induction fuel with
  | zero =>
    intro n h
    have : n = 0 := by omega
    subst this
    simp [natToRev, decodeRev]
  | succ f ih =>
    intro n h
    by_cases h0 : n = 0
    · subst h0; simp [natToRev, decodeRev]
    · have hm : n % 10 < 10 := Nat.mod_lt _ (by omega)
      have hdiv : n / 10 < n := Nat.div_lt_self (by omega) (by omega)
      simp only [natToRev, if_neg h0, decodeRev]
      rw [dval_dchar _ hm, ih (n / 10) (by omega)]
      omega

lemma dec_natStr (n : Nat) : decodeRev (natStr n).data.reverse = n := by
  by_cases h : n = 0
  · subst h; decide
  · show decodeRev (if n = 0 then ("0" : String) else ⟨(natToRev n n).reverse⟩).data.reverse = n
    rw [if_neg h]
    show decodeRev (natToRev n n).reverse.reverse = n
    rw [List.reverse_reverse]
    exact decode_natToRev n n le_rfl

lemma natStr_inj : Function.Injective natStr := by
  intro a b h
  have := congrArg (fun s => decodeRev s.data.reverse) h
  simpa [dec_natStr] using this

lemma strData_append (a b : String) : (a ++ b).data = a.data ++ b.data := rfl

lemma suffixName_inj (b : String) : Function.Injective (suffixName b) := by
  intro i j h
  have h2 : b.data ++ ('_' :: (natStr i).data) = b.data ++ ('_' :: (natStr j).data) := by
    simpa [suffixName, strData_append] using congrArg String.data h
  have h3 := List.append_cancel_left h2
  simp only [List.cons.injEq, true_and] at h3
  exact natStr_inj (String.ext h3)

/-! ### Lemmas about the collision-resolution loop -/

lemma exists_free (b : String) (names : List String) :
    ∃ k, k < names.length + 1 ∧ suffixName b (k + 1) ∉ names := by
  by_contra hc
  push_neg at hc
  set f : Nat → String := fun k => suffixName b (k + 1) with hf
  have hinj : Function.Injective f := by
    intro x y hxy
    have := suffixName_inj b hxy
    omega
  have hnd : ((List.range (names.length + 1)).map f).Nodup :=
    (List.nodup_range _).map hinj
  have hsub : ((List.range (names.length + 1)).map f).toFinset ⊆ names.toFinset := by
    intro x hx
    obtain ⟨k, hk, rfl⟩ := List.mem_map.mp (List.mem_toFinset.mp hx)
    exact List.mem_toFinset.mpr (hc k (List.mem_range.mp hk))
  have h1 : ((List.range (names.length + 1)).map f).toFinset.card = names.length + 1 := by
    rw [List.toFinset_card_of_nodup hnd, List.length_map, List.length_range]
  have h2 := Finset.card_le_card hsub
  have h3 := List.toFinset_card_le names
  omega

lemma loopI_notMem (b : String) (names : List String) :
    ∀ f i, (∃ k, k < f ∧ suffixName b (i + k) ∉ names) →
      suffixName b (loopI b names f i) ∉ names := by
  intro f
  induction f with
  | zero =>
    rintro i ⟨k, hk, _⟩
    omega
  | succ f ih =>
    rintro i ⟨k, hk, hfree⟩
    by_cases hmem : suffixName b i ∈ names
    · simp only [loopI, if_pos hmem]
      have hk0 : k ≠ 0 := by
        rintro rfl
        simp only [Nat.add_zero] at hfree
        exact hfree hmem
      refine ih (i + 1) ⟨k - 1, by omega, ?_⟩
      have : i + 1 + (k - 1) = i + k := by omega
      rw [this]; exact hfree
    · simp only [loopI, if_neg hmem]
      exact hmem

lemma loopI_exact (b : String) (names : List String) :
    ∀ f i j, i ≤ j → j ≤ i + f →
      (∀ k, i ≤ k → k < j → suffixName b k ∈ names) →
      suffixName b j ∉ names →
      loopI b names f i = j := by
  intro f
  induction f with
  | zero =>
    intro i j hij hji _ _
    have hj : j = i := by omega
    subst hj
    rfl
  | succ f ih =>
    intro i j hij hji hall hfree
    by_cases hij' : i = j
    · subst hij'
      simp only [loopI, if_neg hfree]
    · have hi : i < j := by omega
      have hmem : suffixName b i ∈ names := hall i le_rfl hi
      simp only [loopI, if_pos hmem]
      exact ih (i + 1) j (by omega) (by omega)
        (fun k hk1 hk2 => hall k (by omega) hk2) hfree

lemma loopI_le_free (b : String) (names : List String) :
    ∀ f i k, k < f → suffixName b (i + k) ∉ names → loopI b names f i ≤ i + k := by
  intro f
  induction f with
  | zero => intro i k hk _; omega
  | succ f ih =>
    intro i k hk hfree
    by_cases hmem : suffixName b i ∈ names
    · simp only [loopI, if_pos hmem]
      have hk0 : k ≠ 0 := by
        rintro rfl
        simp only [Nat.add_zero] at hfree
        exact hfree hmem
      have := ih (i + 1) (k - 1) (by omega) (by
        have : i + 1 + (k - 1) = i + k := by omega
        rw [this]; exact hfree)
      omega
    · simp only [loopI, if_neg hmem]
      omega

/-! ### Character/length lemmas for `clean_sheet_name` -/

lemma mem_cleanBase_legal {c : Char} {name : String}
    (h : c ∈ (cleanBase name).data) : illegalChar c = false := by
  have h1 : c ∈ stripChars (name.data.filter (fun c => !illegalChar c)) :=
    (List.take_sublist _ _).subset h
  have h2 : c ∈ name.data.filter (fun c => !illegalChar c) := by
    unfold stripChars at h1
    have h3 := List.mem_reverse.mp h1
    have h4 := (List.dropWhile_sublist _).subset h3
    have h5 := List.mem_reverse.mp h4
    exact (List.dropWhile_sublist _).subset h5
  have := (List.mem_filter.mp h2).2
  simpa using this

lemma natToRev_digits : ∀ f n c, c ∈ natToRev f n → ∃ d, d < 10 ∧ c = dchar d := by
  intro f
  induction f with
  | zero => intro n c h; simp [natToRev] at h
  | succ f ih =>
    intro n c h
    by_cases h0 : n = 0
    · subst h0; simp [natToRev] at h
    · simp only [natToRev, if_neg h0, List.mem_cons] at h
      rcases h with h | h
      · exact ⟨n % 10, Nat.mod_lt _ (by omega), h⟩
      · exact ih _ _ h

lemma natStr_digits {c : Char} {n : Nat} (h : c ∈ (natStr n).data) :
    ∃ d, d < 10 ∧ c = dchar d := by
  by_cases h0 : n = 0
  · subst h0
    have h1 : c ∈ ['0'] := h
    have h2 : c = '0' := by simpa using h1
    exact ⟨0, by omega, h2⟩
  · have h1 : c ∈ (natToRev n n).reverse := by
      simpa [natStr, h0] using h
    exact natToRev_digits n n c (List.mem_reverse.mp h1)

lemma dchar_legal : ∀ d, d < 10 → illegalChar (dchar d) = false := by decide

lemma natToRev_len9 : ∀ f n, n ≤ 9 → (natToRev f n).length ≤ 1 := by
  intro f
  induction f with
  | zero => intro n _; simp [natToRev]
  | succ f _ =>
    intro n h
    by_cases h0 : n = 0
    · subst h0; simp [natToRev]
    · have : n / 10 = 0 := by omega
      simp [natToRev, h0, this, natToRev_zero]

lemma natToRev_len99 : ∀ f n, n ≤ 99 → (natToRev f n).length ≤ 2 := by
  intro f
  induction f with
  | zero => intro n _; simp [natToRev]
  | succ f _ =>
    intro n h
    by_cases h0 : n = 0
    · subst h0; simp [natToRev]
    · have h1 : n / 10 ≤ 9 := by omega
      have := natToRev_len9 f (n / 10) h1
      simp only [natToRev, if_neg h0, List.length_cons]
      omega

lemma natStr_len99 {n : Nat} (h : n ≤ 99) : (natStr n).length ≤ 2 := by
  by_cases h0 : n = 0
  · subst h0; decide
  · show (if n = 0 then ("0" : String) else ⟨(natToRev n n).reverse⟩).length ≤ 2
    rw [if_neg h0]
    show (natToRev n n).reverse.length ≤ 2
    rw [List.length_reverse]
    exact natToRev_len99 n n h

lemma strTake_length (s : String) (n : Nat) : (strTake s n).length ≤ n := by
  show (s.data.take n).length ≤ n
  rw [List.length_take]
  omega

lemma strTake_data_subset (s : String) (n : Nat) :
    (strTake s n).data ⊆ s.data :=
  (List.take_sublist _ _).subset

/-- C5 (amended): `clean_sheet_name` always returns a name outside the
assigned set, containing none of the characters `[ ] : * ? / \`; the
31-character bound holds whenever at most 98 names are already assigned
(with 100 or more colliding names the numeric suffix reaches three digits
and the result can be 32 characters long); and two identical titles named
in sequence receive two distinct names, the second being the first's
28-character truncation suffixed `_1`, provided that suffixed name is not
itself already assigned and differs from the first name. -/
theorem C5_clean_sheet_name_amended (name : String) (existing : List String)
    (title : String) (S : List String) :
    clean_sheet_name name existing ∉ existing
    ∧ (∀ c ∈ (clean_sheet_name name existing).data, illegalChar c = false)
    ∧ (existing.length ≤ 98 → (clean_sheet_name name existing).length ≤ 31)
    ∧ (cleanBase title ∉ S →
        suffixName (strTake (cleanBase title) 28) 1 ∉ S →
        suffixName (strTake (cleanBase title) 28) 1 ≠ cleanBase title →
        clean_sheet_name title S = cleanBase title
        ∧ clean_sheet_name title (S ++ [clean_sheet_name title S])
            = suffixName (strTake (cleanBase title) 28) 1
        ∧ clean_sheet_name title (S ++ [clean_sheet_name title S])
            ≠ clean_sheet_name title S) := by
  refine ⟨?_, ?_, ?_, ?_⟩
  · by_cases hc : cleanBase name ∈ existing
    · simp only [clean_sheet_name, if_pos hc]
      obtain ⟨k, hk, hfree⟩ := exists_free (strTake (cleanBase name) 28) existing
      refine loopI_notMem _ _ _ _ ⟨k, hk, ?_⟩
      rw [Nat.add_comm 1 k]
      exact hfree
    · simp only [clean_sheet_name, if_neg hc]
      exact hc
  · intro c hcmem
    by_cases hc : cleanBase name ∈ existing
    · simp only [clean_sheet_name, if_pos hc, suffixName] at hcmem
      have hus : ("_" : String).data = ['_'] := rfl
      simp only [strData_append, hus, List.append_assoc, List.singleton_append,
        List.mem_append, List.mem_cons] at hcmem
      rcases hcmem with h | h | h
      · exact mem_cleanBase_legal (strTake_data_subset _ 28 h)
      · subst h; decide
      · obtain ⟨d, hd, rfl⟩ := natStr_digits h
        exact dchar_legal d hd
    · simp only [clean_sheet_name, if_neg hc] at hcmem
      exact mem_cleanBase_legal hcmem
  · intro hlen
    by_cases hc : cleanBase name ∈ existing
    · simp only [clean_sheet_name, if_pos hc, suffixName]
      obtain ⟨k, hk, hfree⟩ := exists_free (strTake (cleanBase name) 28) existing
      have hle : loopI (strTake (cleanBase name) 28) existing (existing.length + 1) 1
          ≤ 1 + k := by
        apply loopI_le_free _ _ _ _ _ hk
        rw [Nat.add_comm 1 k]
        exact hfree
      rw [String.length_append, String.length_append]
      have h1 := strTake_length (cleanBase name) 28
      have h2 : (natStr (loopI (strTake (cleanBase name) 28) existing
          (existing.length + 1) 1)).length ≤ 2 := natStr_len99 (by omega)
      have h3 : ("_" : String).length = 1 := rfl
      omega
    · simp only [clean_sheet_name, if_neg hc]
      exact strTake_length _ 31
  · intro h1 h2 h3
    have hfirst : clean_sheet_name title S = cleanBase title := by
      simp only [clean_sheet_name, if_neg h1]
    have hmem : cleanBase title ∈ S ++ [cleanBase title] := by simp
    have hnotm : suffixName (strTake (cleanBase title) 28) 1 ∉ S ++ [cleanBase title] := by
      simp only [List.mem_append, List.mem_singleton]
      rintro (h | h)
      · exact h2 h
      · exact h3 h
    have hsecond : clean_sheet_name title (S ++ [clean_sheet_name title S])
        = suffixName (strTake (cleanBase title) 28) 1 := by
      rw [hfirst]
      simp only [clean_sheet_name, if_pos hmem]
      have hflen : (S ++ [cleanBase title]).length = S.length + 1 := by simp
      rw [hflen]
      have hloop : loopI (strTake (cleanBase title) 28) (S ++ [cleanBase title])
          (S.length + 1 + 1) 1 = 1 := by
        simp only [loopI, if_neg hnotm]
      rw [hloop]
    refine ⟨hfirst, hsecond, ?_⟩
    rw [hsecond, hfirst]
    exact h3

/-- Witness for C5 at concrete inputs: a collision resolved to `abc_1`,
staying within the length bound and outside the assigned set. -/
theorem C5_clean_sheet_name_amended_witness :
    clean_sheet_name "abc" ["abc"] ∉ (["abc"] : List String)
    ∧ (clean_sheet_name "abc" ["abc"]).length ≤ 31
    ∧ clean_sheet_name "abc" ([] ++ [clean_sheet_name "abc" []]) = "abc_1" := by
  obtain ⟨h1, _, h3, _⟩ := C5_clean_sheet_name_amended "abc" ["abc"] "x" []
  obtain ⟨_, _, _, h4⟩ := C5_clean_sheet_name_amended "x" [] "abc" []
  obtain ⟨_, hb, _⟩ := h4 (by decide) (by decide) (by decide)
  exact ⟨h1, h3 (by decide), hb.trans (by decide)⟩

/-- C5 counterexample: with the title and 99 suffixed names already
assigned, the returned name is 32 characters long (claim says at most 31);
and in the 30-character `_1` edge case the second of two identical titles
is suffixed `_2`, not `_1`. -/
theorem C5_clean_sheet_name_counterexample :
    (clean_sheet_name c5exName c5exNames).length = 32
    ∧ clean_sheet_name c5edge [c5edge] = "AAAAAAAAAAAAAAAAAAAAAAAAAAAA_2" := by
  constructor
  · have hbase : cleanBase c5exName = c5exName := by decide
    have hmem' : cleanBase c5exName ∈ c5exNames := by
      rw [hbase]
      exact List.mem_cons_self _ _
    have htake : strTake (cleanBase c5exName) 28 = c5exBase := by
      rw [hbase]
      decide
    have hlen : c5exNames.length = 100 := by
      simp [c5exNames]
    have hloop : loopI c5exBase c5exNames (c5exNames.length + 1) 1 = 100 := by
      apply loopI_exact
      · omega
      · omega
      · intro k hk1 hk2
        refine List.mem_cons_of_mem _ (List.mem_map.mpr ⟨k - 1, ?_, ?_⟩)
        · exact List.mem_range.mpr (by omega)
        · show suffixName c5exBase (k - 1 + 1) = suffixName c5exBase k
          congr 1
          omega
      · intro hmem100
        rcases List.mem_cons.mp hmem100 with heq | hin
        · have h1 : (suffixName c5exBase 100).length = 32 := by decide
          have h2 : c5exName.length = 31 := by decide
          rw [heq] at h1
          omega
        · obtain ⟨k, hk, heq⟩ := List.mem_map.mp hin
          have hinj := suffixName_inj c5exBase heq
          have hk' := List.mem_range.mp hk
          omega
    simp only [clean_sheet_name, if_pos hmem', htake, hloop]
    decide
  · decide

/-! ### Panel Consolidator lemmas and claims C1, C2 -/

lemma classify_all_header :
    ∀ l : List (List String), (∀ row ∈ l, periodSearch (joinSpace row) = false) →
      classifyRows false l = (l, []) := by
  intro l
  induction l with
  | nil => intro _; rfl
  | cons row rest ih =>
    intro h
    have h0 := h row (List.mem_cons_self _ _)
    have hrest := ih (fun r hr => h r (List.mem_cons_of_mem _ hr))
    simp [classifyRows, h0, hrest]

lemma filter_not_contains_self (l : List (List String)) :
    l.filter (fun r => !(l.contains r)) = [] := by
  rw [List.filter_eq_nil_iff]
  intro a ha
  simp [List.elem_eq_true_of_mem ha, List.contains, ha]

/-- C1 (counterexample): on the example panel — header rows
`["Current Perception", "", ""]`, `["-Increased", "-Same", "-Decreased"]`
and body row `["May-25", "40", "35"]` — the merged header is *not*
`["Current Perception -Increased", "Current Perception -Same",
"Current Perception -Decreased"]` (the body is returned unchanged). -/
theorem C1_panel_merge_counterexample :
    (process_table_panels c1panels).map Prod.fst ≠
      [["Current Perception -Increased", "Current Perception -Same",
        "Current Perception -Decreased"]]
    ∧ (process_table_panels c1panels).map Prod.snd = [[["May-25", "40", "35"]]] := by
  decide

/-- C1 (amended): the header merge concatenates, per column index, the
non-empty cells of the header rows at that index only, so the example
panel's merged header is `["Current Perception -Increased", "-Same",
"-Decreased"]`, and the body row is unchanged. -/
theorem C1_panel_merge_amended :
    process_table_panels c1panels =
      [(["Current Perception -Increased", "-Same", "-Decreased"],
        [["May-25", "40", "35"]])] := by
  decide

/-- C2 (amended): when no surviving row's joined text matches the period
pattern, every row is classified as header, and the fallback
`[r for r in string_rows if r not in header_rows]` recovers nothing
(every row is in `header_rows`), so the returned body is empty. -/
theorem C2_no_period_fallback_amended
    (panels : List (List (List (Option String))))
    (h : ∀ row ∈ stringRows panels.flatten, periodSearch (joinSpace row) = false) :
    ∀ hb ∈ process_table_panels panels, hb.2 = ([] : List (List String)) := by
  intro hb hmem
  have hcls := classify_all_header _ h
  have hbody : panelsBody (stringRows panels.flatten) = [] := by
    simp only [panelsBody, hcls, fallbackBody, if_pos rfl, filter_not_contains_self]
    rfl
  by_cases hsr : stringRows panels.flatten = []
  · simp [process_table_panels, hsr] at hmem
  · simp only [process_table_panels, if_neg hsr, List.mem_singleton] at hmem
    rw [hmem]
    exact hbody

/-- Witness for C2 (amended) at the concrete panel `[["Note", "x"]]`. -/
theorem C2_no_period_fallback_witness :
    ((process_table_panels c2panels).headD ([], [["x"]])).2 = [] := by
  apply C2_no_period_fallback_amended c2panels (by decide)
  decide

/-- C2 counterexample: for the panel `[["Note", "x"]]` no row matches the
period pattern, yet the returned body is empty — the fallback does not
put the header-classified row `["Note", "x"]` into the body. -/
theorem C2_no_period_fallback_counterexample :
    (process_table_panels c2panels).map Prod.snd = [([] : List (List String))] := by
  decide

/-! ### Document Table Locator lemmas and claim C4 -/

lemma insByPos_mem : ∀ (l : List PItem) (x z : PItem),
    z ∈ insByPos x l → z = x ∨ z ∈ l := by
  intro l
  induction l with
  | nil =>
    intro x z hz
    left
    simpa [insByPos] using hz
  | cons y ys ih =>
    intro x z hz
    by_cases h : pitemPos y ≤ pitemPos x
    · simp only [insByPos, if_pos h, List.mem_cons] at hz
      rcases hz with rfl | hz
      · right; exact List.mem_cons_self _ _
      · rcases ih x z hz with h1 | h1
        · left; exact h1
        · right; exact List.mem_cons_of_mem _ h1
    · simp only [insByPos, if_neg h, List.mem_cons] at hz
      rcases hz with rfl | hz
      · left; rfl
      · right; exact List.mem_cons.mpr hz

lemma insByPos_sorted : ∀ (l : List PItem) (x : PItem),
    l.Pairwise (fun a b => pitemPos a ≤ pitemPos b) →
    (insByPos x l).Pairwise (fun a b => pitemPos a ≤ pitemPos b) := by
  intro l
  induction l with
  | nil => intro x _; simp [insByPos]
  | cons y ys ih =>
    intro x hp
    rcases List.pairwise_cons.mp hp with ⟨hy, hys⟩
    by_cases h : pitemPos y ≤ pitemPos x
    · simp only [insByPos, if_pos h]
      refine List.pairwise_cons.mpr ⟨?_, ih x hys⟩
      intro z hz
      rcases insByPos_mem ys x z hz with rfl | hzm
      · exact h
      · exact hy z hzm
    · simp only [insByPos, if_neg h]
      refine List.pairwise_cons.mpr ⟨?_, hp⟩
      intro z hz
      rcases List.mem_cons.mp hz with rfl | hzm
      · omega
      · have h1 := hy z hzm
        omega

lemma foldl_insByPos_sorted : ∀ (l acc : List PItem),
    acc.Pairwise (fun a b => pitemPos a ≤ pitemPos b) →
    (l.foldl (fun acc x => insByPos x acc) acc).Pairwise
      (fun a b => pitemPos a ≤ pitemPos b) := by
  intro l
  induction l with
  | nil => intro acc h; simpa using h
  | cons x xs ih => intro acc h; exact ih _ (insByPos_sorted _ _ h)

lemma sortByPos_sorted (l : List PItem) :
    (sortByPos l).Pairwise (fun a b => pitemPos a ≤ pitemPos b) :=
  foldl_insByPos_sorted l [] (by simp)

lemma locWalk_flatten : ∀ (items : List PItem) (title : String) (acc : List Grid),
    ((locWalk title acc items).map Prod.snd).flatten = acc ++ tablesOf items := by
  intro items
  induction items with
  | nil =>
    intro title acc
    by_cases h : acc = [] <;> simp [locWalk, h, tablesOf]
  | cons it rest ih =>
    intro title acc
    cases it with
    | titleLine p t =>
      by_cases h : acc = []
      · simp [locWalk, h, tablesOf, ih]
      · simp [locWalk, h, tablesOf, ih]
    | tableReg p g =>
      simp [locWalk, tablesOf, ih]

lemma locWalk_head : ∀ (items : List PItem) (title : String) (acc : List Grid),
    acc ++ preTables items ≠ [] →
    ∃ rest, locWalk title acc items = (title, acc ++ preTables items) :: rest := by
  intro items
  induction items with
  | nil =>
    intro title acc h
    have hpre : preTables ([] : List PItem) = [] := rfl
    rw [hpre, List.append_nil] at h ⊢
    exact ⟨[], by simp [locWalk, h]⟩
  | cons it rest ih =>
    cases it with
    | titleLine p t =>
      intro title acc h
      have hpre : preTables (PItem.titleLine p t :: rest) = [] := by
        simp [preTables, isTitleItem, tablesOf]
      rw [hpre, List.append_nil] at h ⊢
      exact ⟨locWalk t [] rest, by simp [locWalk, h]⟩
    | tableReg p g =>
      intro title acc h
      have hpre : preTables (PItem.tableReg p g :: rest) = g :: preTables rest := by
        simp [preTables, isTitleItem, tablesOf]
      rw [hpre] at h ⊢
      have h2 : (acc ++ [g]) ++ preTables rest ≠ [] := by simp
      obtain ⟨r, hr⟩ := ih title (acc ++ [g]) h2
      refine ⟨r, ?_⟩
      simp only [locWalk]
      rw [hr]
      simp

/-- C4: the Document Table Locator emits tables in reading order — the
concatenation of the emitted groups' panels is exactly the ordered table
list of the document, each page's combined item list being sorted by
vertical position (stable) — so every table region belongs to exactly one
titled group; the default title is non-empty; and when table regions
precede every title line, they are still captured, grouped first under the
default title. -/
theorem C4_extract_pdf_data_order (pages : List Page) :
    ((extract_pdf_data pages).map Prod.snd).flatten = tablesOf (docItems pages)
    ∧ (∀ p ∈ pages, (pageItems p).Pairwise (fun a b => pitemPos a ≤ pitemPos b))
    ∧ defaultTitle ≠ ""
    ∧ (preTables (docItems pages) ≠ [] →
        ∃ rest, extract_pdf_data pages =
          (defaultTitle, preTables (docItems pages)) :: rest) := by
  refine ⟨locWalk_flatten _ _ _, fun p _ => sortByPos_sorted _, by decide, ?_⟩
  intro h
  simpa using locWalk_head (docItems pages) defaultTitle [] (by simpa using h)

/-- Witness for C4 at a concrete two-page document whose first table has
no preceding title. -/
theorem C4_extract_pdf_data_order_witness :
    ((extract_pdf_data c4pages).map Prod.snd).flatten = tablesOf (docItems c4pages)
    ∧ (extract_pdf_data c4pages).headD ("", []) = (defaultTitle, [c4grid1]) := by
  obtain ⟨h1, _, _, h4⟩ := C4_extract_pdf_data_order c4pages
  obtain ⟨rest, hr⟩ := h4 (by decide)
  refine ⟨h1, ?_⟩
  rw [hr]
  show (defaultTitle, preTables (docItems c4pages)) = (defaultTitle, [c4grid1])
  decide

/-! ### Column pruning (C8) and header override (C10) -/

/-- C8: after column pruning every body row has exactly as many cells as
the pruned header — both are images of `cols_to_keep`, with `""` filled in
where the original row was shorter and dropped columns' cells removed. -/
theorem C8_pruned_row_length (header : List String) (body : List (List String))
    (row : List String) (h : row ∈ prunedBody header body) :
    row.length = (prunedHeader header body).length := by
  obtain ⟨r, _, rfl⟩ := List.mem_map.mp h
  simp [prunedHeader]

/-- Witness for C8 at a concrete two-column table. -/
theorem C8_pruned_row_length_witness :
    ((prunedBody ["Survey Round", "A"] [["May-25", "40"]]).headD []).length
      = (prunedHeader ["Survey Round", "A"] [["May-25", "40"]]).length := by
  apply C8_pruned_row_length
  decide

/-- C10: when the title contains "perceptions and expectations"
(case-insensitively) and the pruned header has exactly 9 columns, the
header written is the hard-coded 9-label list; otherwise the pruned header
is written unchanged. -/
theorem C10_final_header (title : String) (pruned : List String) :
    (containsSub (lowerStr title).data "perceptions and expectations".data = true →
      pruned.length = 9 →
      finalHeader title pruned = fixedPerceptionsHeader)
    ∧ ((containsSub (lowerStr title).data "perceptions and expectations".data = false
        ∨ pruned.length ≠ 9) →
      finalHeader title pruned = pruned) := by
  constructor
  · intro h1 h2
    simp [finalHeader, h1, h2]
  · rintro (h | h)
    · simp [finalHeader, h]
    · simp [finalHeader, h]

/-- Witness for C10: the override fires on a 9-column
perceptions-and-expectations table and not on a 2-column table with a
different title. -/
theorem C10_final_header_witness :
    finalHeader "Table 8: Perceptions and Expectations on Income" (List.replicate 9 "h")
        = fixedPerceptionsHeader
    ∧ finalHeader "Table 1: Perceptions on Economic Situation" ["Survey Round", "x"]
        = ["Survey Round", "x"] := by
  obtain ⟨ha, _⟩ :=
    C10_final_header "Table 8: Perceptions and Expectations on Income" (List.replicate 9 "h")
  obtain ⟨_, hb⟩ :=
    C10_final_header "Table 1: Perceptions on Economic Situation" ["Survey Round", "x"]
  exact ⟨ha (by decide) (by decide), hb (Or.inl (by decide))⟩


/-! ### Date Normalizer claim C9 -/

/-- C9: `parse_survey_round` maps `"May-25"` to `"2025-05-01"`, returns
`None` for every non-string input (e.g. the number 123) and for every
string not in month-abbreviation-dash-two-digit-year format (e.g.
`"garbage"`), and every successful result is a date of the first of the
month (`...-01`). -/
theorem C9_parse_survey_round :
    parse_survey_round (.vstr "May-25") = some "2025-05-01"
    ∧ parse_survey_round (.vstr "garbage") = none
    ∧ parse_survey_round (.vnum 123) = none
    ∧ (∀ v : PyVal, (∀ s, v ≠ .vstr s) → parse_survey_round v = none)
    ∧ (∀ s, parseMonYY s = none → parse_survey_round (.vstr s) = none)
    ∧ (∀ v r, parse_survey_round v = some r →
        ∃ y m, r = natStr y ++ "-" ++ twoDigits m ++ "-01") := by
  refine ⟨by decide, by decide, by decide, ?_, ?_, ?_⟩
  · intro v hv
    cases v with
    | vstr s => exact absurd rfl (hv s)
    | vnum q => rfl
    | vnone => rfl
  · intro s h
    simp [parse_survey_round, h]
  · intro v r h
    cases v with
    | vstr s =>
      simp only [parse_survey_round] at h
      rcases hp : parseMonYY s with _ | my
      · rw [hp] at h
        simp at h
      · rw [hp] at h
        rcases my with ⟨m, yy⟩
        simp only [Option.some.injEq] at h
        exact ⟨expandYear yy, m, h.symm⟩
    | vnum q => simp [parse_survey_round] at h
    | vnone => simp [parse_survey_round] at h

/-- Witness for C9 at concrete inputs: a non-string and a non-matching
string. -/
theorem C9_parse_survey_round_witness :
    parse_survey_round .vnone = none ∧ parse_survey_round (.vstr "13-99") = none := by
  obtain ⟨_, _, _, h4, h5, _⟩ := C9_parse_survey_round
  exact ⟨h4 .vnone (fun s h => PyVal.noConfusion h), h5 "13-99" (by decide)⟩

/-! ### Wide-to-Long Normalizer claims C3 and C6 -/

/-- C3: on the title `"Table 1: Perceptions... on Economic Situation"`,
the metric `"Current Perception -Increased"` with period `"May-25"` and
value 40 yields exactly the observation (2025-05-01, Economic Situation,
Current Perception, Increased, 40); and every metric label starting with
neither horizon phrase (case-sensitive) gets perception type and response
category both literally `"Net Response"`. -/
theorem C3_metric_decomposition :
    process_sheet ["Survey Round", "Current Perception -Increased"]
        [[PyVal.vstr "May-25", PyVal.vnum 40]]
        "Table 1: Perceptions... on Economic Situation"
      = [⟨"2025-05-01", "Economic Situation", "Current Perception", "Increased", 40⟩]
    ∧ (∀ metric : String,
        startsW metric "Current Perception" = false →
        startsW metric "One year ahead Expectation" = false →
        perceptionTypeOf metric = "Net Response"
        ∧ responseCategoryOf metric = "Net Response") := by
  constructor
  · decide
  · intro m h1 h2
    have hpt : perceptionTypeOf m = "Net Response" := by
      simp [perceptionTypeOf, perception_types, List.find?, h1, h2]
    exact ⟨hpt, by simp [responseCategoryOf, hpt]⟩

/-- Witness for C3 at a concrete metric label matching neither phrase. -/
theorem C3_metric_decomposition_witness :
    perceptionTypeOf "Some Other Metric" = "Net Response"
    ∧ responseCategoryOf "Some Other Metric" = "Net Response" := by
  obtain ⟨_, h2⟩ := C3_metric_decomposition
  exact h2 "Some Other Metric" (by decide) (by decide)

/-- C6: a table whose header lacks the exact label `"Survey Round"`
emits zero observations, and every emitted observation carries a period
produced by a successful `parse_survey_round` and a value produced by a
successful numeric coercion (failing rows are discarded, never kept with
a null field). -/
theorem C6_process_sheet_validation (header : List String)
    (rows : List (List PyVal)) (title : String) :
    ("Survey Round" ∉ header → process_sheet header rows title = [])
    ∧ (∀ obs ∈ process_sheet header rows title,
        (∃ c, parse_survey_round c = some obs.survey_round)
        ∧ (∃ v, toNumeric v = some obs.response_percentage)) := by
  constructor
  · intro h
    have hc : header.contains "Survey Round" = false := by
      rcases hcon : header.contains "Survey Round" with _ | _
      · rfl
      · exact absurd (List.elem_iff.mp hcon) h
    simp only [process_sheet]
    rw [if_neg (by rw [hc]; exact Bool.false_ne_true)]
  · intro obs hmem
    rcases hc : header.contains "Survey Round" with _ | _
    · simp only [process_sheet] at hmem
      rw [if_neg (by rw [hc]; exact Bool.false_ne_true)] at hmem
      simp at hmem
    · simp only [process_sheet] at hmem
      rw [if_pos hc] at hmem
      obtain ⟨p, hp, hobs⟩ := List.mem_flatMap.mp hmem
      obtain ⟨row, hrow, hfa⟩ := List.mem_filterMap.mp hobs
      rcases hd : parse_survey_round
          (row.getD (header.findIdx (fun h => h == "Survey Round")) PyVal.vnone)
        with _ | d
      · rw [hd] at hfa
        simp at hfa
      · rcases hq : toNumeric (row.getD p.1 PyVal.vnone) with _ | q
        · rw [hd, hq] at hfa
          simp at hfa
        · rw [hd, hq] at hfa
          simp only [Option.some.injEq] at hfa
          refine ⟨⟨row.getD (header.findIdx (fun h => h == "Survey Round")) PyVal.vnone, ?_⟩,
                  ⟨row.getD p.1 PyVal.vnone, ?_⟩⟩
          · rw [← hfa]
            exact hd
          · rw [← hfa]
            exact hq

/-- Witness for C6: a header without the label emits nothing, and a
valid table's emitted observation has a parseable period and value. -/
theorem C6_process_sheet_validation_witness :
    process_sheet ["No Period", "A"] [[PyVal.vstr "May-25", PyVal.vnum 40]] "T" = []
    ∧ (∃ c, parse_survey_round c =
        some ((⟨"2025-05-01", "General", "Net Response", "Net Response", 40⟩ : Obs).survey_round)) := by
  obtain ⟨h1, _⟩ := C6_process_sheet_validation ["No Period", "A"]
    [[PyVal.vstr "May-25", PyVal.vnum 40]] "T"
  obtain ⟨_, h2⟩ := C6_process_sheet_validation ["Survey Round", "M"]
    [[PyVal.vstr "May-25", PyVal.vnum 40]] "T"
  refine ⟨h1 (by decide), ?_⟩
  exact (h2 ⟨"2025-05-01", "General", "Net Response", "Net Response", 40⟩ (by decide)).1

/-! ### Consolidation/Dedup claim C7 -/

lemma dd_nodup_strong : ∀ (l seen : List Obs),
    (dropDupsAux seen l).Nodup ∧ ∀ x ∈ dropDupsAux seen l, x ∉ seen := by
  intro l
  induction l with
  | nil => intro seen; exact ⟨List.nodup_nil, by simp [dropDupsAux]⟩
  | cons x xs ih =>
    intro seen
    by_cases hx : x ∈ seen
    · simp only [dropDupsAux, if_pos hx]
      exact ih seen
    · simp only [dropDupsAux, if_neg hx]
      obtain ⟨hnd, hnotin⟩ := ih (x :: seen)
      constructor
      · refine List.nodup_cons.mpr ⟨?_, hnd⟩
        intro hmem
        exact (hnotin x hmem) (List.mem_cons_self _ _)
      · intro z hz
        rcases List.mem_cons.mp hz with rfl | hz
        · exact hx
        · intro hzs
          exact (hnotin z hz) (List.mem_cons_of_mem _ hzs)

lemma dd_sublist : ∀ (l seen : List Obs), (dropDupsAux seen l).Sublist l := by
  intro l
  induction l with
  | nil => intro seen; simp [dropDupsAux]
  | cons x xs ih =>
    intro seen
    by_cases hx : x ∈ seen
    · simp only [dropDupsAux, if_pos hx]
      exact (ih seen).cons x
    · simp only [dropDupsAux, if_neg hx]
      exact (ih (x :: seen)).cons₂ x

lemma dd_mem_of_mem : ∀ (l seen : List Obs) (x : Obs), x ∈ l →
    x ∈ seen ∨ x ∈ dropDupsAux seen l := by
  intro l
  induction l with
  | nil =>
    intro seen x hx
    simp at hx
  | cons y ys ih =>
    intro seen x hx
    by_cases hy : y ∈ seen
    · simp only [dropDupsAux, if_pos hy]
      rcases List.mem_cons.mp hx with rfl | hx
      · left; exact hy
      · exact ih seen x hx
    · simp only [dropDupsAux, if_neg hy]
      rcases List.mem_cons.mp hx with rfl | hx
      · right; exact List.mem_cons_self _ _
      · rcases ih (y :: seen) x hx with hs | hd
        · rcases List.mem_cons.mp hs with rfl | hs
          · right; exact List.mem_cons_self _ _
          · left; exact hs
        · right; exact List.mem_cons_of_mem _ hd

lemma dd_fixed : ∀ (l seen : List Obs), l.Nodup → (∀ x ∈ l, x ∉ seen) →
    dropDupsAux seen l = l := by
  intro l
  induction l with
  | nil => intro seen _ _; rfl
  | cons x xs ih =>
    intro seen hnd hdisj
    have hx : x ∉ seen := hdisj x (List.mem_cons_self _ _)
    simp only [dropDupsAux, if_neg hx]
    congr 1
    apply ih
    · exact (List.nodup_cons.mp hnd).2
    · intro z hz hzs
      rcases List.mem_cons.mp hzs with rfl | hzs
      · exact (List.nodup_cons.mp hnd).1 hz
      · exact hdisj z (List.mem_cons_of_mem _ hz) hzs

/-- C7: consolidation concatenates the per-table observation lists in
arrival order and removes every row equal to an earlier row keeping the
first occurrence: the result is an order-preserving sublist of the
concatenation containing every observation, with no two identical rows,
and applying the dedup step to its own output changes nothing
(idempotence / fixed point). -/
theorem C7_consolidate_dedup (tables : List (List Obs)) :
    (consolidateObs tables).Nodup
    ∧ dropDupsAux [] (consolidateObs tables) = consolidateObs tables
    ∧ (consolidateObs tables).Sublist tables.flatten
    ∧ (∀ x ∈ tables.flatten, x ∈ consolidateObs tables) := by
  have hnd := (dd_nodup_strong tables.flatten []).1
  refine ⟨hnd, dd_fixed _ [] hnd (by simp), dd_sublist _ _, ?_⟩
  intro x hx
  rcases dd_mem_of_mem tables.flatten [] x hx with hs | hd
  · simp at hs
  · exact hd

/-- Witness for C7 on a concrete pair of overlapping tables. -/
theorem C7_consolidate_dedup_witness :
    dropDupsAux [] (consolidateObs c7tables) = consolidateObs c7tables
    ∧ c7obs1 ∈ consolidateObs c7tables := by
  obtain ⟨_, h2, _, h4⟩ := C7_consolidate_dedup c7tables
  exact ⟨h2, h4 c7obs1 (by decide)⟩



end RbiUccs


